import Mathlib

/-!
Verification development for the invocation-correlation batching engine of
apm-aws-lambda (accumulator/batch.go).

Modelling conventions:
* Byte slices and Go strings are modelled as `List Nat` (one `Nat` per byte;
  all concrete inputs in this development are ASCII, where the UTF-8 bytes of
  a Go string are exactly the code points of its characters).
* `time.Time` / `time.Duration` values are modelled as `Int` (zero denotes
  the zero time `time.Time{}`); operations that read the wall clock take an
  explicit `now : Int` argument.
* `bytes.Buffer` is modelled as the byte list it holds; `Write`/`WriteByte`
  never fail in Go (they panic only on OOM), so they are modelled as pure
  appends.
* Go maps keyed by request ID are modelled as association lists with unique
  keys; mutation through the `*Invocation` pointers stored in the map is
  modelled by writing the updated record back into the list.
* Mutating methods return `Batch × Option BatchError`: the Go methods mutate
  the receiver in place and return an `error`, so the returned state reflects
  all mutations performed before an early `return err`.
-/

/-- A byte slice (or Go string), one `Nat` per byte. -/
abbrev Bytes := List Nat

/-- The bytes of an ASCII string literal: code point of each character.
    (Equals the UTF-8 encoding for the ASCII strings used here.) -/
def strBytes (s : String) : Bytes := s.data.map Char.toNat

/-! ## gjson model

`Batch.AddAgentData` calls `gjson.GetBytes(data[i], "transaction.id").Str`
from the third-party gjson library. We model it with a small total JSON
parser: parse the line as a JSON document; if the root is an object whose
member `"transaction"` is an object whose member `"id"` is a string, return
that string's bytes, else return the empty string (gjson's `Result.Str` is
empty for missing paths and non-string values). Duplicate keys resolve to the
first occurrence, as in gjson's scan. Escape sequences are unescaped for the
single-character escapes; `\u` escapes are out of scope (no claim exercises
them). The parser is fuel-indexed for totality. -/

/-- JSON values; numbers are kept as their raw byte text. -/
inductive Json where
  | null : Json
  | bool (b : Bool) : Json
  | num (raw : Bytes) : Json
  | str (s : Bytes) : Json
  | arr (elems : List Json) : Json
  | obj (members : List (Bytes × Json)) : Json

/-- JSON whitespace bytes: space, tab, LF, CR. -/
def isWsByte (c : Nat) : Bool := c = 32 || c = 9 || c = 10 || c = 13

/-- Drop leading JSON whitespace. -/
def skipWs (s : Bytes) : Bytes := s.dropWhile isWsByte

/-- Single-character JSON escapes: n t r b f map to their control bytes,
    anything else (including quote, backslash, slash) maps to itself. -/
def unescapeByte (c : Nat) : Nat :=
  if c = 110 then 10
  else if c = 116 then 9
  else if c = 114 then 13
  else if c = 98 then 8
  else if c = 102 then 12
  else c

/-- Parse a JSON string body after its opening quote (byte 34): returns the
    unescaped content and the rest after the closing quote. -/
def parseStringBody : Bytes → Option (Bytes × Bytes)
  | [] => none
  | c :: rest =>
    if c = 34 then some ([], rest)
    else if c = 92 then
      match rest with
      | [] => none
      | e :: rest2 =>
        match parseStringBody rest2 with
        | some (s, r) => some (unescapeByte e :: s, r)
        | none => none
    else
      match parseStringBody rest with
      | some (s, r) => some (c :: s, r)
      | none => none

/-- Bytes that may appear in a JSON number token. -/
def isNumByte (c : Nat) : Bool :=
  (48 ≤ c && c ≤ 57) || c = 45 || c = 43 || c = 46 || c = 101 || c = 69

mutual

/-- Fuel-indexed JSON value parser: returns the value and the unconsumed rest. -/
def parseValue : Nat → Bytes → Option (Json × Bytes)
  | 0, _ => none
  | fuel + 1, s =>
    match skipWs s with
    | [] => none
    | c :: rest =>
      if c = 34 then
        match parseStringBody rest with
        | some (s', r) => some (.str s', r)
        | none => none
      else if c = 123 then parseObjectBody fuel rest
      else if c = 91 then parseArrayBody fuel rest
      else if c = 116 then
        match rest with
        | 114 :: 117 :: 101 :: r => some (.bool true, r)
        | _ => none
      else if c = 102 then
        match rest with
        | 97 :: 108 :: 115 :: 101 :: r => some (.bool false, r)
        | _ => none
      else if c = 110 then
        match rest with
        | 117 :: 108 :: 108 :: r => some (.null, r)
        | _ => none
      else if isNumByte c then
        some (.num (c :: rest.takeWhile isNumByte), rest.dropWhile isNumByte)
      else none

/-- Parse an object body after the opening brace (byte 123). -/
def parseObjectBody : Nat → Bytes → Option (Json × Bytes)
  | 0, _ => none
  | fuel + 1, s =>
    match skipWs s with
    | 125 :: r => some (.obj [], r)
    | s' =>
      match parseMembers fuel s' with
      | some (ms, r) => some (.obj ms, r)
      | none => none

/-- Parse one or more `"key": value` members, ending at the closing brace. -/
def parseMembers : Nat → Bytes → Option (List (Bytes × Json) × Bytes)
  | 0, _ => none
  | fuel + 1, s =>
    match skipWs s with
    | 34 :: rest =>
      match parseStringBody rest with
      | some (key, r1) =>
        match skipWs r1 with
        | 58 :: r2 =>
          match parseValue fuel r2 with
          | some (v, r3) =>
            match skipWs r3 with
            | 44 :: r4 =>
              match parseMembers fuel r4 with
              | some (ms, r5) => some ((key, v) :: ms, r5)
              | none => none
            | 125 :: r4 => some ([(key, v)], r4)
            | _ => none
          | none => none
        | _ => none
      | none => none
    | _ => none

/-- Parse an array body after the opening bracket (byte 91). -/
def parseArrayBody : Nat → Bytes → Option (Json × Bytes)
  | 0, _ => none
  | fuel + 1, s =>
    match skipWs s with
    | 93 :: r => some (.arr [], r)
    | s' =>
      match parseElems fuel s' with
      | some (vs, r) => some (.arr vs, r)
      | none => none

/-- Parse one or more array elements, ending at the closing bracket. -/
def parseElems : Nat → Bytes → Option (List Json × Bytes)
  | 0, _ => none
  | fuel + 1, s =>
    match parseValue fuel s with
    | some (v, r1) =>
      match skipWs r1 with
      | 44 :: r2 =>
        match parseElems fuel r2 with
        | some (vs, r3) => some (v :: vs, r3)
        | none => none
      | 93 :: r2 => some ([v], r2)
      | _ => none
    | none => none

end

/-- First-occurrence member lookup in a parsed JSON object. -/
def jsonMember : List (Bytes × Json) → Bytes → Option Json
  | [], _ => none
  | (k, v) :: rest, key => if k = key then some v else jsonMember rest key

/-- Model of `gjson.GetBytes(line, "transaction.id").Str`: the string at path
    `transaction.id` if present and a string, else the empty string. -/
def gjsonTransactionIdStr (line : Bytes) : Bytes :=
  match parseValue (2 * line.length + 2) line with
  | some (.obj ms, _) =>
    match jsonMember ms (strBytes "transaction") with
    | some (.obj ms2) =>
      match jsonMember ms2 (strBytes "id") with
      | some (.str s) => s
      | _ => []
    | _ => []
  | _ => []

/-! ## findEventType (accumulator/batch.go) -/

/-- The scan loop of `findEventType`: find the first double quote (34) or
    single quote (39); return it together with the bytes after it
    (`quote`, `key := body[i+1:]`). `none` models the loop falling through
    with `quote = 0, key = nil` (then `bytes.IndexByte(nil, 0) = -1`). -/
def findQuote : Bytes → Option (Nat × Bytes)
  | [] => none
  | c :: rest => if c = 34 ∨ c = 39 then some (c, rest) else findQuote rest

/-- Model of `bytes.IndexByte`: index of the first occurrence, `none` for Go's -1. -/
def indexByte : Bytes → Nat → Option Nat
  | [], _ => none
  | c :: rest, b => if c = b then some 0 else (indexByte rest b).map (· + 1)

/-- `findEventType(body)`: the bytes strictly between the first quote
    character and its next occurrence; `none` models Go's nil result. -/
def findEventType (body : Bytes) : Option Bytes :=
  match findQuote body with
  | none => none
  | some (quote, key) =>
    match indexByte key quote with
    | none => none
    | some e => some (key.take e)

/-! ## Invocation

The `Invocation` type lives in accumulator/invocation.go, which is not part
of the provided sources; its fields are taken from the spec's data model and
its two operations are modelled from the spec (§4.2). -/

/-- Per-invocation state (spec §3); zero values as created by
    `RegisterInvocation`: empty trace/transaction IDs, not observed. -/
structure Invocation where
  RequestID : Bytes
  FunctionARN : Bytes
  DeadlineMs : Int
  Timestamp : Int
  TraceID : Bytes
  TransactionID : Bytes
  TransactionObserved : Bool
deriving DecidableEq

/-- Modelled from the spec: `NeedProxyTransaction() → bool:
    TransactionID ≠ ∅ ∧ ¬TransactionObserved` (accumulator/invocation.go is
    not in the provided sources). -/
def Invocation.NeedProxyTransaction (inc : Invocation) : Bool :=
  inc.TransactionID != ([] : Bytes) && !inc.TransactionObserved

/-- Modelled from the spec: the minimal single-line proxy `transaction` JSON
    synthesized by `Invocation.Finalize`, carrying `TransactionID`, `TraceID`,
    the function ARN as context, a duration from `now − Timestamp`, and the
    status as outcome (spec §4.2). Byte 123 is an opening brace, 125 a closing
    brace, 58 a colon, 44 a comma, 34 a double quote. -/
def proxyTransaction (inc : Invocation) (status : Bytes) (now : Int) : Bytes :=
  let q : Bytes → Bytes := fun s => 34 :: (s ++ [34])
  [123] ++ q (strBytes "transaction") ++ [58, 123] ++
    q (strBytes "id") ++ [58] ++ q inc.TransactionID ++ [44] ++
    q (strBytes "trace_id") ++ [58] ++ q inc.TraceID ++ [44] ++
    q (strBytes "context") ++ [58, 123] ++
      q (strBytes "service") ++ [58, 123] ++
        q (strBytes "name") ++ [58] ++ q inc.FunctionARN ++
      [125, 125, 44] ++
    q (strBytes "duration") ++ [58] ++ strBytes (toString (now - inc.Timestamp)) ++ [44] ++
    q (strBytes "outcome") ++ [58] ++ q status ++
  [125, 125]

/-- Modelled from the spec: `Finalize(status)` returns the proxy transaction
    bytes iff `NeedProxyTransaction()`, else nothing (spec §4.2). -/
def Invocation.Finalize (inc : Invocation) (status : Bytes) (now : Int) : Option Bytes :=
  if inc.NeedProxyTransaction then some (proxyTransaction inc status now) else none

/-! ## Batch (accumulator/batch.go) -/

/-- Errors surfaced by the batch (`ErrMetadataUnavailable`, `ErrBatchFull`,
    `ErrInvalidEncoding`, and the `fmt.Errorf` for an unknown request ID). -/
inductive BatchError where
  | metadataUnavailable : BatchError
  | batchFull : BatchError
  | invalidEncoding : BatchError
  | invocationDoesNotExist (requestID : Bytes) : BatchError
deriving DecidableEq

/-- The `Batch` struct. The `sync.RWMutex` serializes the methods; each model
    function is one critical section. -/
structure Batch where
  metadataBytes : Nat
  buf : Bytes
  invocations : List (Bytes × Invocation)
  count : Nat
  age : Int
  maxSize : Nat
  maxAge : Int
  currentlyExecutingRequestID : Bytes
deriving DecidableEq

/-- Go map read `b.invocations[requestID]`. -/
def lookupInv : List (Bytes × Invocation) → Bytes → Option Invocation
  | [], _ => none
  | (k, v) :: rest, r => if k = r then some v else lookupInv rest r

/-- Go map write `b.invocations[requestID] = inv` (replace or insert). -/
def setInv : List (Bytes × Invocation) → Bytes → Invocation → List (Bytes × Invocation)
  | [], k, v => [(k, v)]
  | (k0, v0) :: rest, k, v =>
    if k0 = k then (k0, v) :: rest else (k0, v0) :: setInv rest k v

/-- Go map delete `delete(b.invocations, requestID)`. -/
def eraseInv : List (Bytes × Invocation) → Bytes → List (Bytes × Invocation)
  | [], _ => []
  | (k0, v0) :: rest, k =>
    if k0 = k then eraseInv rest k else (k0, v0) :: eraseInv rest k

/-- `NewBatch(maxSize, maxAge)`: empty buffer, no metadata, no invocations. -/
def NewBatch (maxSize : Nat) (maxAge : Int) : Batch :=
  { metadataBytes := 0
    buf := []
    invocations := []
    count := 0
    age := 0
    maxSize := maxSize
    maxAge := maxAge
    currentlyExecutingRequestID := [] }

/-- The 90% size threshold `int(float64(maxSize)*0.9)`. For every
    `maxSize < 2^52` the Go float computation equals `⌊9·maxSize/10⌋`:
    `float64(0.9)` exceeds 9/10 by less than 2⁻⁵³ relatively, so the rounded
    product truncates to the same integer. -/
def sizeThreshold (maxSize : Nat) : Nat := 9 * maxSize / 10

/-- `Batch.RegisterInvocation`: create the invocation record and make it the
    currently executing request. -/
def Batch.RegisterInvocation (b : Batch) (requestID functionARN : Bytes)
    (deadlineMs timestamp : Int) : Batch :=
  { b with
    invocations := setInv b.invocations requestID
      { RequestID := requestID
        FunctionARN := functionARN
        DeadlineMs := deadlineMs
        Timestamp := timestamp
        TraceID := []
        TransactionID := []
        TransactionObserved := false }
    currentlyExecutingRequestID := requestID }

/-- `Batch.OnAgentInit`: set the transaction and trace IDs of the currently
    executing invocation; error if it does not exist. -/
def Batch.OnAgentInit (b : Batch) (transactionID traceID : Bytes) :
    Batch × Option BatchError :=
  match lookupInv b.invocations b.currentlyExecutingRequestID with
  | none => (b, some (.invocationDoesNotExist b.currentlyExecutingRequestID))
  | some inc =>
    ({ b with
        invocations := setInv b.invocations b.currentlyExecutingRequestID
          { inc with TransactionID := transactionID, TraceID := traceID } },
     none)

/-- `Batch.addData`: requires metadata, refuses at `count == maxSize`, appends
    `'\n'` (byte 10) then the raw bytes, arms `age` on the first entry. -/
def Batch.addData (b : Batch) (now : Int) (data : Bytes) : Batch × Option BatchError :=
  if b.metadataBytes = 0 then (b, some .metadataUnavailable)
  else if b.count = b.maxSize then (b, some .batchFull)
  else
    ({ b with
        buf := b.buf ++ 10 :: data
        age := if b.count = 0 then now else b.age
        count := b.count + 1 },
     none)

/-- The drop condition of the event loop in `Batch.AddAgentData`: the
    invocation still needs a proxy transaction, `findEventType` yields
    `transaction` (Go compares `string(t)`, where nil stringifies to the
    empty string), and the gjson `transaction.id` is non-empty and equals the
    invocation's `TransactionID`. -/
def dropLine (inc : Invocation) (line : Bytes) : Bool :=
  inc.NeedProxyTransaction &&
    ((findEventType line).getD [] == strBytes "transaction") &&
    (gjsonTransactionIdStr line != ([] : Bytes) &&
      inc.TransactionID == gjsonTransactionIdStr line)

/-- One iteration of the event loop of `Batch.AddAgentData`: either mark the
    transaction observed and drop the line (`continue`), or `addData` it. -/
def Batch.processLine (b : Batch) (inc : Invocation) (now : Int) (line : Bytes) :
    Batch × Invocation × Option BatchError :=
  if dropLine inc line then
    (b, { inc with TransactionObserved := true }, none)
  else
    let r := b.addData now line
    (r.1, inc, r.2)

/-- The event loop of `Batch.AddAgentData` over `data[1:]`, stopping at the
    first `addData` error (`return err`). -/
def processLines (now : Int) : Batch → Invocation → List Bytes →
    Batch × Invocation × Option BatchError
  | b, inc, [] => (b, inc, none)
  | b, inc, line :: rest =>
    let r := b.processLine inc now line
    match r.2.2 with
    | some e => (r.1, r.2.1, some e)
    | none => processLines now r.1 r.2.1 rest

/-- `Batch.AddAgentData` on the decompressed body (`GetUncompressedBytes` is
    not in the provided sources; per the spec it is the identity for
    `identity`-encoded payloads, which is what every claim below exercises, so
    `raw` here is the uncompressed request body). Splits on `'\n'` (byte 10),
    captures metadata from the first line if absent, then runs the event loop;
    the invocation mutated through its map pointer is written back. -/
def Batch.AddAgentData (b : Batch) (now : Int) (raw : Bytes) :
    Batch × Option BatchError :=
  let data := raw.splitOn 10
  match data with
  | [] => (b, none)
  | d0 :: lines =>
    match lookupInv b.invocations b.currentlyExecutingRequestID with
    | none => (b, some (.invocationDoesNotExist b.currentlyExecutingRequestID))
    | some inc =>
      let b1 :=
        if b.metadataBytes = 0 then
          { b with buf := b.buf ++ d0, metadataBytes := d0.length }
        else b
      let r := processLines now b1 inc lines
      ({ r.1 with
          invocations := setInv r.1.invocations b.currentlyExecutingRequestID r.2.1 },
       r.2.2)

/-- `Batch.finalizeInvocation`: look up the invocation, append its proxy
    transaction if `Finalize` produced one, and delete it from the map — the
    `defer delete` runs even when `addData` fails. -/
def Batch.finalizeInvocation (b : Batch) (now : Int) (reqID status : Bytes) :
    Batch × Option BatchError :=
  match lookupInv b.invocations reqID with
  | none => (b, some (.invocationDoesNotExist reqID))
  | some inc =>
    match inc.Finalize status now with
    | some proxyTxn =>
      let r := b.addData now proxyTxn
      ({ r.1 with invocations := eraseInv r.1.invocations reqID }, r.2)
    | none => ({ b with invocations := eraseInv b.invocations reqID }, none)

/-- `Batch.OnLambdaLogRuntimeDone` is `finalizeInvocation` under the lock. -/
def Batch.OnLambdaLogRuntimeDone (b : Batch) (now : Int) (reqID status : Bytes) :
    Batch × Option BatchError :=
  b.finalizeInvocation now reqID status

/-- The loop of `Batch.OnShutdown`: finalize each request ID in turn,
    returning the first error (`return err` exits the range loop). -/
def shutdownLoop (now : Int) (status : Bytes) : Batch → List Bytes →
    Batch × Option BatchError
  | b, [] => (b, none)
  | b, r :: rs =>
    let res := b.finalizeInvocation now r status
    match res.2 with
    | some e => (res.1, some e)
    | none => shutdownLoop now status res.1 rs

/-- `Batch.OnShutdown`: finalize every invocation in the batch with the given
    status. The Go code ranges over the map (order unspecified, each entry
    deleting only itself); the model iterates in association-list order. -/
def Batch.OnShutdown (b : Batch) (now : Int) (status : Bytes) :
    Batch × Option BatchError :=
  shutdownLoop now status b (b.invocations.map (fun p => p.2.RequestID))

/-- `Batch.AddLambdaData` is `addData` under the lock. -/
def Batch.AddLambdaData (b : Batch) (now : Int) (d : Bytes) :
    Batch × Option BatchError :=
  b.addData now d

/-- `Batch.Count`: the number of entries in the batch. -/
def Batch.Count (b : Batch) : Nat := b.count

/-- `Batch.ShouldShip`: 90% size threshold, or a non-zero age older than
    `maxAge` (`time.Since(b.age) > b.maxAge` with `Since = now − age`). -/
def Batch.ShouldShip (b : Batch) (now : Int) : Bool :=
  decide (b.count ≥ sizeThreshold b.maxSize) ||
    (decide (b.age ≠ 0) && decide (now - b.age > b.maxAge))

/-- `Batch.Reset`: zero `count` and `age`, truncate `buf` to the metadata
    prefix (`bytes.Buffer.Truncate` keeps the first `metadataBytes` bytes). -/
def Batch.Reset (b : Batch) : Batch :=
  { b with count := 0, age := 0, buf := b.buf.take b.metadataBytes }

/-- `Batch.ToAPMData`: the current wire bytes. -/
def Batch.ToAPMData (b : Batch) : Bytes := b.buf

/-! ## Operation sequences

Reachable batch states: any sequence of public mutating operations applied to
`NewBatch`. Read-only operations (`Count`, `ShouldShip`, `ToAPMData`) do not
change state and are omitted. -/

/-- One public mutating operation on the batch. -/
inductive BatchOp where
  | registerInvocation (requestID functionARN : Bytes) (deadlineMs timestamp : Int) : BatchOp
  | onAgentInit (transactionID traceID : Bytes) : BatchOp
  | addAgentData (now : Int) (raw : Bytes) : BatchOp
  | onLambdaLogRuntimeDone (now : Int) (requestID status : Bytes) : BatchOp
  | onShutdown (now : Int) (status : Bytes) : BatchOp
  | addLambdaData (now : Int) (d : Bytes) : BatchOp
  | reset : BatchOp
deriving DecidableEq

/-- Apply one operation (keeping the mutated state also when an error is
    returned, as the Go methods do). -/
def applyOp (b : Batch) : BatchOp → Batch
  | .registerInvocation r a d t => b.RegisterInvocation r a d t
  | .onAgentInit t tr => (b.OnAgentInit t tr).1
  | .addAgentData now raw => (b.AddAgentData now raw).1
  | .onLambdaLogRuntimeDone now r s => (b.OnLambdaLogRuntimeDone now r s).1
  | .onShutdown now s => (b.OnShutdown now s).1
  | .addLambdaData now d => (b.AddLambdaData now d).1
  | .reset => b.Reset

/-- Apply a sequence of operations in order. -/
def runOps (b : Batch) (ops : List BatchOp) : Batch := ops.foldl applyOp b

/-- The metadata invariant: with no metadata the buffer is empty, and the
    metadata prefix never exceeds the buffer. -/
def MetaInv (b : Batch) : Prop :=
  (b.metadataBytes = 0 → b.buf = []) ∧ b.metadataBytes ≤ b.buf.length

/-- The age invariant: an empty batch has the zero age. -/
def AgeInv (b : Batch) : Prop := b.count = 0 → b.age = 0


/-- The bytes appended by finalizing the given invocations in order: a
    newline plus the proxy transaction, for each invocation that needs one. -/
def proxyAppends (status : Bytes) (now : Int) : List (Bytes × Invocation) → Bytes
  | [] => []
  | p :: rest =>
    (if p.2.NeedProxyTransaction then 10 :: proxyTransaction p.2 status now else []) ++
      proxyAppends status now rest

/-- The number of transaction events in the buffer (after the metadata line)
    whose gjson `transaction.id` equals the given transaction ID. -/
def matchingTxnCount (buf : Bytes) (txnID : Bytes) : Nat :=
  (((buf.splitOn 10).drop 1).filter
    (fun l => ((findEventType l).getD [] == strBytes "transaction") &&
      (gjsonTransactionIdStr l == txnID))).length

/-! ## Concrete scenarios (spec §8)

S1: register `R1`, `OnAgentInit(T1, Tr1)`, `AddAgentData` with metadata
`\x7b"meta":1\x7d` and the single event `\x7b"transaction":\x7b"id":"T1"\x7d\x7d`,
then `OnLambdaLogRuntimeDone(R1, "success")`. -/

/-- The S1 metadata line `\x7b"meta":1\x7d` (10 bytes). -/
def s1Meta : Bytes := [123, 34, 109, 101, 116, 97, 34, 58, 49, 125]

/-- The S1 transaction event `\x7b"transaction":\x7b"id":"T1"\x7d\x7d`. -/
def s1Txn : Bytes :=
  [123] ++ (34 :: strBytes "transaction" ++ [34]) ++ [58, 123] ++
    (34 :: strBytes "id" ++ [34]) ++ [58] ++ (34 :: strBytes "T1" ++ [34]) ++ [125, 125]

/-- The S1 agent body: metadata, newline, one transaction event. -/
def s1Body : Bytes := s1Meta ++ 10 :: s1Txn

/-- The S1 batch state after `AddAgentData` (before finalization). -/
def s1AfterAdd : Batch :=
  ((((NewBatch 100 1000).RegisterInvocation (strBytes "R1") (strBytes "arn") 0 0).OnAgentInit
      (strBytes "T1") (strBytes "Tr1")).1.AddAgentData 5 s1Body).1

/-- The S1 run: the finalized batch and the error of the last step. -/
def s1Run : Batch × Option BatchError :=
  s1AfterAdd.OnLambdaLogRuntimeDone 6 (strBytes "R1") (strBytes "success")

/-- A configured invocation fixture: `R1`, transaction `T1`, trace `Tr1`,
    transaction not yet observed. -/
def wInc : Invocation :=
  { RequestID := strBytes "R1"
    FunctionARN := strBytes "arn"
    DeadlineMs := 0
    Timestamp := 0
    TraceID := strBytes "Tr1"
    TransactionID := strBytes "T1"
    TransactionObserved := false }

/-- A batch fixture holding `wInc` with the S1 metadata already captured. -/
def wBatch : Batch :=
  { metadataBytes := 10
    buf := s1Meta
    invocations := [(strBytes "R1", wInc)]
    count := 0
    age := 0
    maxSize := 100
    maxAge := 1000
    currentlyExecutingRequestID := strBytes "R1" }

/-- A batch fixture with no metadata captured yet. -/
def wBatchNoMeta : Batch :=
  { metadataBytes := 0
    buf := []
    invocations := [(strBytes "R1", wInc)]
    count := 0
    age := 0
    maxSize := 100
    maxAge := 1000
    currentlyExecutingRequestID := strBytes "R1" }

/-- A second invocation fixture: `R2`, transaction `T2`, trace `Tr2`. -/
def wInc2 : Invocation :=
  { RequestID := strBytes "R2"
    FunctionARN := strBytes "arn"
    DeadlineMs := 0
    Timestamp := 0
    TraceID := strBytes "Tr2"
    TransactionID := strBytes "T2"
    TransactionObserved := false }

/-- A batch fixture holding two open invocations, both needing a proxy. -/
def wBatch2 : Batch :=
  { metadataBytes := 10
    buf := s1Meta
    invocations := [(strBytes "R1", wInc), (strBytes "R2", wInc2)]
    count := 0
    age := 0
    maxSize := 100
    maxAge := 1000
    currentlyExecutingRequestID := strBytes "R2" }

theorem addData_metadataBytes (b : Batch) (now : Int) (d : Bytes) :
    ((b.addData now d).1).metadataBytes = b.metadataBytes := by
  unfold Batch.addData; split_ifs <;> rfl

theorem addData_metaInv (b : Batch) (now : Int) (d : Bytes) (h : MetaInv b) :
    MetaInv ((b.addData now d).1) := by
  have h2 := h.2
  unfold MetaInv Batch.addData
  split_ifs with hm hc hc0 <;> dsimp only
  · exact h
  · exact h
  all_goals
    refine ⟨fun hh => absurd hh hm, ?_⟩
    simp only [List.length_append]
    omega

theorem addData_prefix (b : Batch) (now : Int) (d : Bytes) (h : MetaInv b) :
    ((b.addData now d).1).buf.take b.metadataBytes = b.buf.take b.metadataBytes := by
  unfold Batch.addData
  split_ifs with hm hc hc0 <;> dsimp only
  all_goals exact List.take_append_of_le_length h.2

theorem addData_ageInv (b : Batch) (now : Int) (d : Bytes) (h : AgeInv b) :
    AgeInv ((b.addData now d).1) := by
  unfold AgeInv Batch.addData
  split_ifs with hm hc hc0 <;> dsimp only
  · exact h
  · exact h
  all_goals
    intro hc'
    exact absurd hc' (Nat.succ_ne_zero _)

theorem processLine_cases (b : Batch) (inc : Invocation) (now : Int) (line : Bytes) :
    (b.processLine inc now line = (b, { inc with TransactionObserved := true }, none)
      ∧ dropLine inc line = true) ∨
    (b.processLine inc now line = ((b.addData now line).1, inc, (b.addData now line).2)
      ∧ dropLine inc line = false) := by
  unfold Batch.processLine
  by_cases hd : dropLine inc line
  · left; rw [if_pos hd]; exact ⟨rfl, hd⟩
  · right; rw [if_neg hd]; exact ⟨rfl, by simpa using hd⟩

theorem processLine_metadataBytes (b : Batch) (inc : Invocation) (now : Int) (line : Bytes) :
    ((b.processLine inc now line).1).metadataBytes = b.metadataBytes := by
  rcases processLine_cases b inc now line with ⟨h, _⟩ | ⟨h, _⟩
  · rw [h]
  · rw [h]; exact addData_metadataBytes b now line

theorem processLine_metaInv (b : Batch) (inc : Invocation) (now : Int) (line : Bytes)
    (h : MetaInv b) : MetaInv ((b.processLine inc now line).1) := by
  rcases processLine_cases b inc now line with ⟨he, _⟩ | ⟨he, _⟩
  · rw [he]; exact h
  · rw [he]; exact addData_metaInv b now line h

theorem processLine_prefix (b : Batch) (inc : Invocation) (now : Int) (line : Bytes)
    (h : MetaInv b) :
    ((b.processLine inc now line).1).buf.take b.metadataBytes = b.buf.take b.metadataBytes := by
  rcases processLine_cases b inc now line with ⟨he, _⟩ | ⟨he, _⟩
  · rw [he]
  · rw [he]; exact addData_prefix b now line h

theorem processLine_ageInv (b : Batch) (inc : Invocation) (now : Int) (line : Bytes)
    (h : AgeInv b) : AgeInv ((b.processLine inc now line).1) := by
  rcases processLine_cases b inc now line with ⟨he, _⟩ | ⟨he, _⟩
  · rw [he]; exact h
  · rw [he]; exact addData_ageInv b now line h

theorem processLines_metadataBytes (now : Int) (lines : List Bytes) :
    ∀ (b : Batch) (inc : Invocation),
      ((processLines now b inc lines).1).metadataBytes = b.metadataBytes := by
  induction lines with
  | nil => intro b inc; rfl
  | cons line rest ih =>
    intro b inc
    unfold processLines
    cases hm : (b.processLine inc now line).2.2 with
    | some e =>
      simp only [hm]
      exact processLine_metadataBytes b inc now line
    | none =>
      simp only [hm]
      rw [ih, processLine_metadataBytes]

theorem processLines_metaInv (now : Int) (lines : List Bytes) :
    ∀ (b : Batch) (inc : Invocation), MetaInv b →
      MetaInv ((processLines now b inc lines).1) := by
  induction lines with
  | nil => intro b inc h; exact h
  | cons line rest ih =>
    intro b inc h
    unfold processLines
    cases hm : (b.processLine inc now line).2.2 with
    | some e =>
      simp only [hm]
      exact processLine_metaInv b inc now line h
    | none =>
      simp only [hm]
      exact ih _ _ (processLine_metaInv b inc now line h)

theorem processLines_prefix (now : Int) (lines : List Bytes) :
    ∀ (b : Batch) (inc : Invocation), MetaInv b →
      ((processLines now b inc lines).1).buf.take b.metadataBytes
        = b.buf.take b.metadataBytes := by
  induction lines with
  | nil => intro b inc _; rfl
  | cons line rest ih =>
    intro b inc h
    unfold processLines
    cases hm : (b.processLine inc now line).2.2 with
    | some e =>
      simp only [hm]
      exact processLine_prefix b inc now line h
    | none =>
      simp only [hm]
      have h1 : MetaInv ((b.processLine inc now line).1) :=
        processLine_metaInv b inc now line h
      have hmb := processLine_metadataBytes b inc now line
      calc ((processLines now (b.processLine inc now line).1
                (b.processLine inc now line).2.1 rest).1).buf.take b.metadataBytes
          = ((processLines now (b.processLine inc now line).1
                (b.processLine inc now line).2.1 rest).1).buf.take
                ((b.processLine inc now line).1).metadataBytes := by rw [hmb]
        _ = ((b.processLine inc now line).1).buf.take
                ((b.processLine inc now line).1).metadataBytes := ih _ _ h1
        _ = ((b.processLine inc now line).1).buf.take b.metadataBytes := by rw [hmb]
        _ = b.buf.take b.metadataBytes := processLine_prefix b inc now line h

theorem processLines_ageInv (now : Int) (lines : List Bytes) :
    ∀ (b : Batch) (inc : Invocation), AgeInv b →
      AgeInv ((processLines now b inc lines).1) := by
  induction lines with
  | nil => intro b inc h; exact h
  | cons line rest ih =>
    intro b inc h
    unfold processLines
    cases hm : (b.processLine inc now line).2.2 with
    | some e =>
      simp only [hm]
      exact processLine_ageInv b inc now line h
    | none =>
      simp only [hm]
      exact ih _ _ (processLine_ageInv b inc now line h)

theorem metaInv_of_metadata_set (b : Batch) (d0 : Bytes) (hb : b.buf = []) :
    MetaInv { b with buf := b.buf ++ d0, metadataBytes := d0.length } := by
  refine ⟨fun hz => ?_, ?_⟩
  · rw [hb]
    simpa using List.length_eq_zero.mp hz
  · rw [hb]
    simp

theorem AddAgentData_metaInv (b : Batch) (now : Int) (raw : Bytes) (h : MetaInv b) :
    MetaInv ((b.AddAgentData now raw).1) := by
  unfold Batch.AddAgentData
  cases hd : raw.splitOn 10 with
  | nil => exact h
  | cons d0 lines =>
    cases hl : lookupInv b.invocations b.currentlyExecutingRequestID with
    | none => exact h
    | some inc =>
      dsimp only
      by_cases hm0 : b.metadataBytes = 0
      · rw [if_pos hm0]
        exact processLines_metaInv now lines _ inc (metaInv_of_metadata_set b d0 (h.1 hm0))
      · rw [if_neg hm0]
        exact processLines_metaInv now lines b inc h

theorem AddAgentData_metadataBytes (b : Batch) (now : Int) (raw : Bytes)
    (hm0 : b.metadataBytes ≠ 0) :
    ((b.AddAgentData now raw).1).metadataBytes = b.metadataBytes := by
  unfold Batch.AddAgentData
  cases hd : raw.splitOn 10 with
  | nil => rfl
  | cons d0 lines =>
    cases hl : lookupInv b.invocations b.currentlyExecutingRequestID with
    | none => rfl
    | some inc =>
      dsimp only
      rw [if_neg hm0]
      exact processLines_metadataBytes now lines b inc

theorem AddAgentData_prefix (b : Batch) (now : Int) (raw : Bytes) (h : MetaInv b)
    (hm0 : b.metadataBytes ≠ 0) :
    ((b.AddAgentData now raw).1).buf.take b.metadataBytes = b.buf.take b.metadataBytes := by
  unfold Batch.AddAgentData
  cases hd : raw.splitOn 10 with
  | nil => rfl
  | cons d0 lines =>
    cases hl : lookupInv b.invocations b.currentlyExecutingRequestID with
    | none => rfl
    | some inc =>
      dsimp only
      rw [if_neg hm0]
      exact processLines_prefix now lines b inc h

theorem AddAgentData_ageInv (b : Batch) (now : Int) (raw : Bytes) (h : AgeInv b) :
    AgeInv ((b.AddAgentData now raw).1) := by
  unfold Batch.AddAgentData
  cases hd : raw.splitOn 10 with
  | nil => exact h
  | cons d0 lines =>
    cases hl : lookupInv b.invocations b.currentlyExecutingRequestID with
    | none => exact h
    | some inc =>
      dsimp only
      by_cases hm0 : b.metadataBytes = 0
      · rw [if_pos hm0]
        exact processLines_ageInv now lines _ inc h
      · rw [if_neg hm0]
        exact processLines_ageInv now lines b inc h

theorem finalizeInvocation_metadataBytes (b : Batch) (now : Int) (reqID status : Bytes) :
    ((b.finalizeInvocation now reqID status).1).metadataBytes = b.metadataBytes := by
  unfold Batch.finalizeInvocation
  cases hl : lookupInv b.invocations reqID with
  | none => rfl
  | some inc =>
    dsimp only
    cases hf : inc.Finalize status now with
    | some proxyTxn =>
      simp only [hf]
      exact addData_metadataBytes b now proxyTxn
    | none => simp only [hf]

theorem finalizeInvocation_metaInv (b : Batch) (now : Int) (reqID status : Bytes)
    (h : MetaInv b) : MetaInv ((b.finalizeInvocation now reqID status).1) := by
  unfold Batch.finalizeInvocation
  cases hl : lookupInv b.invocations reqID with
  | none => exact h
  | some inc =>
    dsimp only
    cases hf : inc.Finalize status now with
    | some proxyTxn =>
      simp only [hf]
      exact addData_metaInv b now proxyTxn h
    | none => simp only [hf]; exact h

theorem finalizeInvocation_prefix (b : Batch) (now : Int) (reqID status : Bytes)
    (h : MetaInv b) :
    ((b.finalizeInvocation now reqID status).1).buf.take b.metadataBytes
      = b.buf.take b.metadataBytes := by
  unfold Batch.finalizeInvocation
  cases hl : lookupInv b.invocations reqID with
  | none => rfl
  | some inc =>
    dsimp only
    cases hf : inc.Finalize status now with
    | some proxyTxn =>
      simp only [hf]
      exact addData_prefix b now proxyTxn h
    | none => simp only [hf]

theorem finalizeInvocation_ageInv (b : Batch) (now : Int) (reqID status : Bytes)
    (h : AgeInv b) : AgeInv ((b.finalizeInvocation now reqID status).1) := by
  unfold Batch.finalizeInvocation
  cases hl : lookupInv b.invocations reqID with
  | none => exact h
  | some inc =>
    dsimp only
    cases hf : inc.Finalize status now with
    | some proxyTxn =>
      simp only [hf]
      exact addData_ageInv b now proxyTxn h
    | none => simp only [hf]; exact h

theorem shutdownLoop_metadataBytes (now : Int) (status : Bytes) (rs : List Bytes) :
    ∀ b : Batch, ((shutdownLoop now status b rs).1).metadataBytes = b.metadataBytes := by
  induction rs with
  | nil => intro b; rfl
  | cons r rest ih =>
    intro b
    unfold shutdownLoop
    cases hm : (b.finalizeInvocation now r status).2 with
    | some e =>
      simp only [hm]
      exact finalizeInvocation_metadataBytes b now r status
    | none =>
      simp only [hm]
      rw [ih, finalizeInvocation_metadataBytes]

theorem shutdownLoop_metaInv (now : Int) (status : Bytes) (rs : List Bytes) :
    ∀ b : Batch, MetaInv b → MetaInv ((shutdownLoop now status b rs).1) := by
  induction rs with
  | nil => intro b h; exact h
  | cons r rest ih =>
    intro b h
    unfold shutdownLoop
    cases hm : (b.finalizeInvocation now r status).2 with
    | some e =>
      simp only [hm]
      exact finalizeInvocation_metaInv b now r status h
    | none =>
      simp only [hm]
      exact ih _ (finalizeInvocation_metaInv b now r status h)

theorem shutdownLoop_prefix (now : Int) (status : Bytes) (rs : List Bytes) :
    ∀ b : Batch, MetaInv b →
      ((shutdownLoop now status b rs).1).buf.take b.metadataBytes
        = b.buf.take b.metadataBytes := by
  induction rs with
  | nil => intro b _; rfl
  | cons r rest ih =>
    intro b h
    unfold shutdownLoop
    cases hm : (b.finalizeInvocation now r status).2 with
    | some e =>
      simp only [hm]
      exact finalizeInvocation_prefix b now r status h
    | none =>
      simp only [hm]
      have h1 := finalizeInvocation_metaInv b now r status h
      have hmb := finalizeInvocation_metadataBytes b now r status
      calc ((shutdownLoop now status (b.finalizeInvocation now r status).1 rest).1).buf.take
              b.metadataBytes
          = ((shutdownLoop now status (b.finalizeInvocation now r status).1 rest).1).buf.take
              ((b.finalizeInvocation now r status).1).metadataBytes := by rw [hmb]
        _ = ((b.finalizeInvocation now r status).1).buf.take
              ((b.finalizeInvocation now r status).1).metadataBytes := ih _ h1
        _ = ((b.finalizeInvocation now r status).1).buf.take b.metadataBytes := by rw [hmb]
        _ = b.buf.take b.metadataBytes := finalizeInvocation_prefix b now r status h

theorem shutdownLoop_ageInv (now : Int) (status : Bytes) (rs : List Bytes) :
    ∀ b : Batch, AgeInv b → AgeInv ((shutdownLoop now status b rs).1) := by
  induction rs with
  | nil => intro b h; exact h
  | cons r rest ih =>
    intro b h
    unfold shutdownLoop
    cases hm : (b.finalizeInvocation now r status).2 with
    | some e =>
      simp only [hm]
      exact finalizeInvocation_ageInv b now r status h
    | none =>
      simp only [hm]
      exact ih _ (finalizeInvocation_ageInv b now r status h)

theorem OnAgentInit_state (b : Batch) (t tr : Bytes) :
    ((b.OnAgentInit t tr).1).metadataBytes = b.metadataBytes ∧
    ((b.OnAgentInit t tr).1).buf = b.buf ∧
    ((b.OnAgentInit t tr).1).count = b.count ∧
    ((b.OnAgentInit t tr).1).age = b.age := by
  unfold Batch.OnAgentInit
  cases hl : lookupInv b.invocations b.currentlyExecutingRequestID with
  | none => exact ⟨rfl, rfl, rfl, rfl⟩
  | some inc => exact ⟨rfl, rfl, rfl, rfl⟩

theorem Reset_metaInv (b : Batch) (h : MetaInv b) : MetaInv b.Reset := by
  refine ⟨fun hz => ?_, ?_⟩
  · have : b.metadataBytes = 0 := hz
    simp [Batch.Reset, this]
  · have h2 := h.2
    simp only [Batch.Reset, List.length_take]
    omega

theorem Reset_prefix (b : Batch) :
    (b.Reset).buf.take b.metadataBytes = b.buf.take b.metadataBytes := by
  simp [Batch.Reset, List.take_take]

theorem applyOp_metaInv (b : Batch) (op : BatchOp) (h : MetaInv b) :
    MetaInv (applyOp b op) := by
  cases op with
  | registerInvocation r a d t => exact h
  | onAgentInit t tr =>
    have hs := OnAgentInit_state b t tr
    show MetaInv ((b.OnAgentInit t tr).1)
    exact ⟨fun hz => by rw [hs.2.1]; exact h.1 (by rw [← hs.1]; exact hz),
      by rw [hs.2.1, hs.1]; exact h.2⟩
  | addAgentData now raw => exact AddAgentData_metaInv b now raw h
  | onLambdaLogRuntimeDone now r s => exact finalizeInvocation_metaInv b now r s h
  | onShutdown now s => exact shutdownLoop_metaInv now s _ b h
  | addLambdaData now d => exact addData_metaInv b now d h
  | reset => exact Reset_metaInv b h

theorem applyOp_ageInv (b : Batch) (op : BatchOp) (h : AgeInv b) :
    AgeInv (applyOp b op) := by
  cases op with
  | registerInvocation r a d t => exact h
  | onAgentInit t tr =>
    have hs := OnAgentInit_state b t tr
    show AgeInv ((b.OnAgentInit t tr).1)
    intro hc
    rw [hs.2.2.2]
    exact h (by rw [← hs.2.2.1]; exact hc)
  | addAgentData now raw => exact AddAgentData_ageInv b now raw h
  | onLambdaLogRuntimeDone now r s => exact finalizeInvocation_ageInv b now r s h
  | onShutdown now s => exact shutdownLoop_ageInv now s _ b h
  | addLambdaData now d => exact addData_ageInv b now d h
  | reset => intro _; rfl

theorem applyOp_metadataBytes (b : Batch) (op : BatchOp) (hm0 : b.metadataBytes ≠ 0) :
    (applyOp b op).metadataBytes = b.metadataBytes := by
  cases op with
  | registerInvocation r a d t => rfl
  | onAgentInit t tr => exact (OnAgentInit_state b t tr).1
  | addAgentData now raw => exact AddAgentData_metadataBytes b now raw hm0
  | onLambdaLogRuntimeDone now r s => exact finalizeInvocation_metadataBytes b now r s
  | onShutdown now s => exact shutdownLoop_metadataBytes now s _ b
  | addLambdaData now d => exact addData_metadataBytes b now d
  | reset => rfl

theorem applyOp_prefix (b : Batch) (op : BatchOp) (h : MetaInv b)
    (hm0 : b.metadataBytes ≠ 0) :
    (applyOp b op).buf.take b.metadataBytes = b.buf.take b.metadataBytes := by
  cases op with
  | registerInvocation r a d t => rfl
  | onAgentInit t tr =>
    show ((b.OnAgentInit t tr).1).buf.take b.metadataBytes = b.buf.take b.metadataBytes
    rw [(OnAgentInit_state b t tr).2.1]
  | addAgentData now raw => exact AddAgentData_prefix b now raw h hm0
  | onLambdaLogRuntimeDone now r s => exact finalizeInvocation_prefix b now r s h
  | onShutdown now s => exact shutdownLoop_prefix now s _ b h
  | addLambdaData now d => exact addData_prefix b now d h
  | reset => exact Reset_prefix b

theorem runOps_metaInv (ops : List BatchOp) :
    ∀ b : Batch, MetaInv b → MetaInv (runOps b ops) := by
  induction ops with
  | nil => intro b h; exact h
  | cons op rest ih => intro b h; exact ih _ (applyOp_metaInv b op h)

theorem runOps_ageInv (ops : List BatchOp) :
    ∀ b : Batch, AgeInv b → AgeInv (runOps b ops) := by
  induction ops with
  | nil => intro b h; exact h
  | cons op rest ih => intro b h; exact ih _ (applyOp_ageInv b op h)

theorem runOps_metadataBytes (ops : List BatchOp) :
    ∀ b : Batch, b.metadataBytes ≠ 0 → (runOps b ops).metadataBytes = b.metadataBytes := by
  induction ops with
  | nil => intro b _; rfl
  | cons op rest ih =>
    intro b hm0
    have h1 := applyOp_metadataBytes b op hm0
    calc (runOps (applyOp b op) rest).metadataBytes
        = (applyOp b op).metadataBytes := ih _ (by rw [h1]; exact hm0)
      _ = b.metadataBytes := h1

theorem runOps_prefix (ops : List BatchOp) :
    ∀ b : Batch, MetaInv b → b.metadataBytes ≠ 0 →
      (runOps b ops).buf.take b.metadataBytes = b.buf.take b.metadataBytes := by
  induction ops with
  | nil => intro b _ _; rfl
  | cons op rest ih =>
    intro b h hm0
    have h1 := applyOp_metadataBytes b op hm0
    calc (runOps (applyOp b op) rest).buf.take b.metadataBytes
        = (runOps (applyOp b op) rest).buf.take (applyOp b op).metadataBytes := by rw [h1]
      _ = (applyOp b op).buf.take (applyOp b op).metadataBytes :=
          ih _ (applyOp_metaInv b op h) (by rw [h1]; exact hm0)
      _ = (applyOp b op).buf.take b.metadataBytes := by rw [h1]
      _ = b.buf.take b.metadataBytes := applyOp_prefix b op h hm0

theorem addData_invocations (b : Batch) (now : Int) (d : Bytes) :
    ((b.addData now d).1).invocations = b.invocations := by
  unfold Batch.addData; split_ifs <;> rfl

theorem addData_success (b : Batch) (now : Int) (d : Bytes)
    (h : (b.addData now d).2 = none) :
    (b.addData now d).1 =
      { b with buf := b.buf ++ 10 :: d,
               age := if b.count = 0 then now else b.age,
               count := b.count + 1 } := by
  unfold Batch.addData at h ⊢
  split_ifs at h ⊢ with h1 h2 h3 <;> rfl

theorem AddAgentData_metadata_set (b : Batch) (now : Int) (raw : Bytes) (h : MetaInv b)
    (hm0 : b.metadataBytes = 0) (d0 : Bytes) (lines : List Bytes)
    (hd : raw.splitOn 10 = d0 :: lines) (inc : Invocation)
    (hl : lookupInv b.invocations b.currentlyExecutingRequestID = some inc) :
    ((b.AddAgentData now raw).1).metadataBytes = d0.length ∧
    ((b.AddAgentData now raw).1).buf.take d0.length = d0 := by
  have hb : b.buf = [] := h.1 hm0
  have hmi : MetaInv { b with buf := b.buf ++ d0, metadataBytes := d0.length } :=
    metaInv_of_metadata_set b d0 hb
  unfold Batch.AddAgentData
  rw [hd]
  dsimp only
  rw [hl]
  dsimp only
  rw [if_pos hm0]
  constructor
  · show ((processLines now _ inc lines).1).metadataBytes = d0.length
    rw [processLines_metadataBytes]
  · show ((processLines now _ inc lines).1).buf.take d0.length = d0
    have hp := processLines_prefix now lines
      { b with buf := b.buf ++ d0, metadataBytes := d0.length } inc hmi
    rw [show ({ b with buf := b.buf ++ d0, metadataBytes := d0.length } : Batch).metadataBytes
      = d0.length from rfl] at hp
    rw [hp, hb]
    simp

theorem applyOp_metadata_origin (b : Batch) (op : BatchOp) (h : MetaInv b)
    (hm0 : b.metadataBytes = 0) (hm1 : (applyOp b op).metadataBytes ≠ 0) :
    ∃ now raw d0 lines, op = BatchOp.addAgentData now raw ∧
      raw.splitOn 10 = d0 :: lines ∧
      (applyOp b op).metadataBytes = d0.length ∧
      (applyOp b op).buf.take ((applyOp b op).metadataBytes) = d0 := by
  cases op with
  | registerInvocation r a d t => exact absurd hm0 hm1
  | onAgentInit t tr =>
    exact absurd (by rw [show (applyOp b (.onAgentInit t tr)).metadataBytes
      = b.metadataBytes from (OnAgentInit_state b t tr).1]; exact hm0) hm1
  | onLambdaLogRuntimeDone now r s =>
    exact absurd (by rw [show (applyOp b (.onLambdaLogRuntimeDone now r s)).metadataBytes
      = b.metadataBytes from finalizeInvocation_metadataBytes b now r s]; exact hm0) hm1
  | onShutdown now s =>
    exact absurd (by rw [show (applyOp b (.onShutdown now s)).metadataBytes
      = b.metadataBytes from shutdownLoop_metadataBytes now s _ b]; exact hm0) hm1
  | addLambdaData now d =>
    exact absurd (by rw [show (applyOp b (.addLambdaData now d)).metadataBytes
      = b.metadataBytes from addData_metadataBytes b now d]; exact hm0) hm1
  | reset => exact absurd hm0 hm1
  | addAgentData now raw =>
    have hm1' : ((b.AddAgentData now raw).1).metadataBytes ≠ 0 := hm1
    cases hd : raw.splitOn 10 with
    | nil =>
      exfalso
      apply hm1'
      unfold Batch.AddAgentData
      rw [hd]
      exact hm0
    | cons d0 lines =>
      cases hl : lookupInv b.invocations b.currentlyExecutingRequestID with
      | none =>
        exfalso
        apply hm1'
        unfold Batch.AddAgentData
        rw [hd]
        dsimp only
        rw [hl]
        exact hm0
      | some inc =>
        have hset := AddAgentData_metadata_set b now raw h hm0 d0 lines hd inc hl
        refine ⟨now, raw, d0, lines, rfl, hd, hset.1, ?_⟩
        show ((b.AddAgentData now raw).1).buf.take ((b.AddAgentData now raw).1).metadataBytes = d0
        rw [hset.1]
        exact hset.2

theorem lookupInv_eraseInv_self (l : List (Bytes × Invocation)) (k : Bytes) :
    lookupInv (eraseInv l k) k = none := by
  induction l with
  | nil => rfl
  | cons p rest ih =>
    unfold eraseInv
    by_cases hk : p.1 = k
    · rw [if_pos hk]; exact ih
    · rw [if_neg hk]
      unfold lookupInv
      rw [if_neg hk]
      exact ih

theorem eraseInv_of_not_mem (l : List (Bytes × Invocation)) (k : Bytes)
    (h : k ∉ l.map Prod.fst) : eraseInv l k = l := by
  induction l with
  | nil => rfl
  | cons p rest ih =>
    simp only [List.map_cons, List.mem_cons, not_or] at h
    unfold eraseInv
    rw [if_neg (fun hh => h.1 hh.symm), ih h.2]

theorem shutdownLoop_success (now : Int) (status : Bytes) :
    ∀ (l : List (Bytes × Invocation)) (b : Batch),
      b.invocations = l →
      (∀ p ∈ l, p.1 = p.2.RequestID) →
      (l.map Prod.fst).Nodup →
      (shutdownLoop now status b (l.map (fun p => p.2.RequestID))).2 = none →
      (shutdownLoop now status b (l.map (fun p => p.2.RequestID))).1.invocations = []
      ∧ (shutdownLoop now status b (l.map (fun p => p.2.RequestID))).1.buf
          = b.buf ++ proxyAppends status now l := by
  intro l
  induction l with
  | nil =>
    intro b hinv _ _ _
    exact ⟨hinv, by simp [shutdownLoop, proxyAppends]⟩
  | cons p rest ih =>
    intro b hinv hkeys hnodup hok
    have hkey : p.1 = p.2.RequestID := hkeys p (List.mem_cons_self p rest)
    have hlook : lookupInv b.invocations p.2.RequestID = some p.2 := by
      rw [hinv]
      unfold lookupInv
      rw [if_pos hkey]
    have hnotin : p.2.RequestID ∉ rest.map Prod.fst := by
      simp only [List.map_cons, List.nodup_cons] at hnodup
      rw [← hkey]
      exact hnodup.1
    have herase : eraseInv b.invocations p.2.RequestID = rest := by
      rw [hinv]
      unfold eraseInv
      rw [if_pos hkey]
      exact eraseInv_of_not_mem rest _ hnotin
    have htailkeys : ∀ q ∈ rest, q.1 = q.2.RequestID :=
      fun q hq => hkeys q (List.mem_cons_of_mem p hq)
    have htailnodup : (rest.map Prod.fst).Nodup := by
      simp only [List.map_cons, List.nodup_cons] at hnodup
      exact hnodup.2
    have hcons : proxyAppends status now (p :: rest) =
        (if p.2.NeedProxyTransaction then 10 :: proxyTransaction p.2 status now else []) ++
          proxyAppends status now rest := rfl
    simp only [List.map_cons] at hok ⊢
    unfold shutdownLoop at hok ⊢
    unfold Batch.finalizeInvocation at hok ⊢
    rw [hlook] at hok ⊢
    dsimp only at hok ⊢
    unfold Invocation.Finalize at hok ⊢
    by_cases hneed : p.2.NeedProxyTransaction
    · rw [if_pos hneed] at hok ⊢
      dsimp only at hok ⊢
      cases ha : (b.addData now (proxyTransaction p.2 status now)).2 with
      | some e =>
        rw [ha] at hok
        dsimp only at hok
        simp at hok
      | none =>
        rw [ha] at hok
        dsimp only at hok
        dsimp only
        have hadd := addData_success b now (proxyTransaction p.2 status now) ha
        have hinv1 : ({ (b.addData now (proxyTransaction p.2 status now)).1 with
            invocations := eraseInv
              ((b.addData now (proxyTransaction p.2 status now)).1).invocations
              p.2.RequestID } : Batch).invocations = rest := by
          rw [show ({ (b.addData now (proxyTransaction p.2 status now)).1 with
              invocations := eraseInv
                ((b.addData now (proxyTransaction p.2 status now)).1).invocations
                p.2.RequestID } : Batch).invocations
            = eraseInv ((b.addData now (proxyTransaction p.2 status now)).1).invocations
                p.2.RequestID from rfl]
          rw [addData_invocations, herase]
        have hrest := ih _ hinv1 htailkeys htailnodup hok
        refine ⟨hrest.1, ?_⟩
        rw [hrest.2]
        rw [show ({ (b.addData now (proxyTransaction p.2 status now)).1 with
            invocations := eraseInv
              ((b.addData now (proxyTransaction p.2 status now)).1).invocations
              p.2.RequestID } : Batch).buf
          = ((b.addData now (proxyTransaction p.2 status now)).1).buf from rfl]
        rw [hadd]
        rw [hcons, if_pos hneed]
        simp
    · rw [if_neg hneed] at hok ⊢
      dsimp only at hok ⊢
      have hinv1 : ({ b with invocations := eraseInv b.invocations p.2.RequestID } : Batch).invocations
          = rest := herase
      have hrest := ih _ hinv1 htailkeys htailnodup hok
      refine ⟨hrest.1, ?_⟩
      rw [hrest.2]
      rw [hcons, if_neg hneed]
      simp

theorem findQuote_eq_none (body : Bytes) (h : ∀ c ∈ body, c ≠ 34 ∧ c ≠ 39) :
    findQuote body = none := by
  induction body with
  | nil => rfl
  | cons c rest ih =>
    have hc := h c (List.mem_cons_self c rest)
    unfold findQuote
    rw [if_neg (fun hor => hor.elim hc.1 hc.2)]
    exact ih (fun c' hc' => h c' (List.mem_cons_of_mem c hc'))

theorem findQuote_append (pre : Bytes) (q : Nat) (rest : Bytes)
    (hq : q = 34 ∨ q = 39) (hpre : ∀ c ∈ pre, c ≠ 34 ∧ c ≠ 39) :
    findQuote (pre ++ q :: rest) = some (q, rest) := by
  induction pre with
  | nil =>
    rw [List.nil_append]
    unfold findQuote
    rw [if_pos hq]
  | cons c pre' ih =>
    have hc := hpre c (List.mem_cons_self c pre')
    rw [List.cons_append]
    unfold findQuote
    rw [if_neg (fun hor => hor.elim hc.1 hc.2)]
    exact ih (fun c' hc' => hpre c' (List.mem_cons_of_mem c hc'))

theorem indexByte_eq_none (l : Bytes) (q : Nat) (h : q ∉ l) : indexByte l q = none := by
  induction l with
  | nil => rfl
  | cons c rest ih =>
    simp only [List.mem_cons, not_or] at h
    unfold indexByte
    rw [if_neg (fun hh => h.1 hh.symm), ih h.2]
    rfl

theorem indexByte_take (l : Bytes) (q : Nat) (h : q ∈ l) :
    ∃ n, indexByte l q = some n ∧ l.take n = l.takeWhile (fun c => c != q) := by
  induction l with
  | nil => cases h
  | cons c rest ih =>
    by_cases hc : c = q
    · refine ⟨0, ?_, ?_⟩
      · unfold indexByte
        rw [if_pos hc]
      · simp [List.takeWhile, hc]
    · have hr : q ∈ rest := by
        rcases List.mem_cons.mp h with h1 | h2
        · exact absurd h1.symm hc
        · exact h2
      obtain ⟨n, hn, ht⟩ := ih hr
      refine ⟨n + 1, ?_, ?_⟩
      · unfold indexByte
        rw [if_neg hc, hn]
        rfl
      · rw [List.take_succ_cons]
        have hb : (c != q) = true := by simpa using hc
        simp only [List.takeWhile, hb]
        rw [ht]

theorem dropLine_iff (inc : Invocation) (line : Bytes) :
    dropLine inc line = true ↔
      (inc.NeedProxyTransaction = true ∧
       (findEventType line).getD [] = strBytes "transaction" ∧
       gjsonTransactionIdStr line = inc.TransactionID) := by
  unfold dropLine
  simp only [Bool.and_eq_true, beq_iff_eq, bne_iff_ne, ne_eq]
  constructor
  · rintro ⟨⟨hn, ht⟩, _, hid⟩
    exact ⟨hn, ht, hid.symm⟩
  · rintro ⟨hn, ht, hid⟩
    have htx : inc.TransactionID ≠ [] := by
      unfold Invocation.NeedProxyTransaction at hn
      simp only [Bool.and_eq_true, bne_iff_ne, ne_eq] at hn
      exact hn.1
    exact ⟨⟨hn, ht⟩, by rw [hid]; exact htx, hid.symm⟩

/-! ## Claims -/

/-- C5: `addData` (and `AddLambdaData`, which is `addData` under the lock)
returns `metadataUnavailable` when `metadataBytes = 0`, returns `batchFull`
when `count = maxSize` (metadata being present), leaves the whole batch state
unchanged in both error cases, and otherwise appends a newline byte followed
by the raw event bytes, increments `count` by one, and sets `age` to `now`
exactly when the entry is the first since the last reset (`count = 0`). -/
theorem claim_C5 : ∀ (b : Batch) (now : Int) (d : Bytes),
    (b.AddLambdaData now d = b.addData now d) ∧
    (b.metadataBytes = 0 →
      b.addData now d = (b, some BatchError.metadataUnavailable)) ∧
    (b.metadataBytes ≠ 0 → b.count = b.maxSize →
      b.addData now d = (b, some BatchError.batchFull)) ∧
    (b.metadataBytes ≠ 0 → b.count ≠ b.maxSize →
      b.addData now d =
        ({ b with buf := b.buf ++ 10 :: d,
                  age := if b.count = 0 then now else b.age,
                  count := b.count + 1 }, none)) := by
  intro b now d
  refine ⟨rfl, ?_, ?_, ?_⟩
  · intro hm
    unfold Batch.addData
    rw [if_pos hm]
  · intro hm hc
    unfold Batch.addData
    rw [if_neg hm, if_pos hc]
  · intro hm hc
    unfold Batch.addData
    rw [if_neg hm, if_neg hc]

theorem claim_C5_witness :
    (wBatch.metadataBytes ≠ 0 ∧ wBatch.count ≠ wBatch.maxSize) ∧
    wBatch.addData 7 [97] =
      ({ wBatch with buf := wBatch.buf ++ 10 :: [97],
                     age := if wBatch.count = 0 then 7 else wBatch.age,
                     count := wBatch.count + 1 }, none) :=
  ⟨⟨by decide, by decide⟩, (claim_C5 wBatch 7 [97]).2.2.2 (by decide) (by decide)⟩

/-- C7: for every batch state satisfying the reachable-state invariant
`metadataBytes ≤ len buf` (second conjunct: every state reachable from
`NewBatch` satisfies it), `Reset` truncates the buffer to exactly the
metadata prefix, zeroes `count` and `age`, and leaves `metadataBytes`,
`invocations`, `currentlyExecutingRequestID`, `maxSize` and `maxAge`
unchanged. -/
theorem claim_C7 :
    (∀ b : Batch, b.metadataBytes ≤ b.buf.length →
      (b.Reset.buf = b.buf.take b.metadataBytes ∧
       b.Reset.buf.length = b.metadataBytes ∧
       b.Reset.count = 0 ∧
       b.Reset.age = 0 ∧
       b.Reset.metadataBytes = b.metadataBytes ∧
       b.Reset.invocations = b.invocations ∧
       b.Reset.currentlyExecutingRequestID = b.currentlyExecutingRequestID ∧
       b.Reset.maxSize = b.maxSize ∧
       b.Reset.maxAge = b.maxAge)) ∧
    (∀ (maxS : Nat) (maxA : Int) (ops : List BatchOp),
      (runOps (NewBatch maxS maxA) ops).metadataBytes
        ≤ (runOps (NewBatch maxS maxA) ops).buf.length) := by
  constructor
  · intro b h
    refine ⟨rfl, ?_, rfl, rfl, rfl, rfl, rfl, rfl, rfl⟩
    show (b.buf.take b.metadataBytes).length = b.metadataBytes
    rw [List.length_take]
    omega
  · intro maxS maxA ops
    exact (runOps_metaInv ops (NewBatch maxS maxA) ⟨fun _ => rfl, Nat.le_refl 0⟩).2

theorem claim_C7_witness :
    (wBatch.metadataBytes ≤ wBatch.buf.length) ∧
    wBatch.Reset.buf = wBatch.buf.take wBatch.metadataBytes ∧
    wBatch.Reset.count = 0 :=
  ⟨by decide, (claim_C7.1 wBatch (by decide)).1, (claim_C7.1 wBatch (by decide)).2.2.1⟩

/-- C4: `ShouldShip` is true exactly when `count ≥ ⌊0.9·maxSize⌋` or the age
is non-zero and `now − age` exceeds `maxAge`; and in every state reachable
from `NewBatch`, `count = 0` forces `age = 0`, so the age trigger is never
active on an empty batch. -/
theorem claim_C4 :
    (∀ (b : Batch) (now : Int),
      b.ShouldShip now = true ↔
        (b.count ≥ 9 * b.maxSize / 10 ∨ (b.age ≠ 0 ∧ now - b.age > b.maxAge))) ∧
    (∀ (maxS : Nat) (maxA : Int) (ops : List BatchOp),
      (runOps (NewBatch maxS maxA) ops).count = 0 →
      (runOps (NewBatch maxS maxA) ops).age = 0) := by
  constructor
  · intro b now
    unfold Batch.ShouldShip sizeThreshold
    simp only [Bool.or_eq_true, Bool.and_eq_true, decide_eq_true_eq, ge_iff_le]
  · intro maxS maxA ops
    exact runOps_ageInv ops (NewBatch maxS maxA) (fun _ => rfl)

theorem claim_C4_witness :
    ((runOps (NewBatch 10 50) [BatchOp.addLambdaData 5 [97], BatchOp.reset]).count = 0) ∧
    (runOps (NewBatch 10 50) [BatchOp.addLambdaData 5 [97], BatchOp.reset]).age = 0 :=
  ⟨by decide,
    claim_C4.2 10 50 [BatchOp.addLambdaData 5 [97], BatchOp.reset] (by decide)⟩

/-- C10: `findEventType` is a total function of the byte slice: if the body
has no quote byte (34 or 39) it returns `none` (Go nil); if the first quote
byte `q` has no second occurrence it returns `none`; otherwise it returns
exactly the bytes strictly between the first quote and its next matching
occurrence. -/
theorem claim_C10 : ∀ body : Bytes,
    ((∀ c ∈ body, c ≠ 34 ∧ c ≠ 39) → findEventType body = none) ∧
    (∀ pre q rest, body = pre ++ q :: rest → (q = 34 ∨ q = 39) →
      (∀ c ∈ pre, c ≠ 34 ∧ c ≠ 39) →
      ((q ∉ rest → findEventType body = none) ∧
       (q ∈ rest →
         findEventType body = some (rest.takeWhile (fun c => c != q))))) := by
  intro body
  constructor
  · intro h
    unfold findEventType
    rw [findQuote_eq_none body h]
  · intro pre q rest hb hq hpre
    subst hb
    constructor
    · intro hmem
      unfold findEventType
      rw [findQuote_append pre q rest hq hpre]
      dsimp only
      rw [indexByte_eq_none rest q hmem]
    · intro hmem
      unfold findEventType
      rw [findQuote_append pre q rest hq hpre]
      dsimp only
      obtain ⟨n, hn, ht⟩ := indexByte_take rest q hmem
      rw [hn]
      dsimp only
      rw [ht]

theorem claim_C10_witness :
    ((34 : Nat) ∈ ([97, 98, 34] : Bytes)) ∧
    findEventType [120, 34, 97, 98, 34]
      = some (([97, 98, 34] : Bytes).takeWhile (fun c => c != 34)) :=
  ⟨by decide,
    ((claim_C10 [120, 34, 97, 98, 34]).2 [120] 34 [97, 98, 34]
      (by decide) (by decide) (by decide)).2 (by decide)⟩

/-- C2: in the event loop of `AddAgentData`, a line is dropped — leaving the
buffer, count and whole batch state untouched, and setting
`TransactionObserved` — exactly when the invocation still needs a proxy
transaction, the first top-level key is `transaction`, and the gjson
`transaction.id` equals the invocation's `TransactionID`; every other line is
handed to `addData`; and `AddAgentData` processes the event lines of the
split body in order via `processLines`. -/
theorem claim_C2 :
    (∀ (b : Batch) (inc : Invocation) (now : Int) (e : Bytes),
      inc.NeedProxyTransaction = true →
      (findEventType e).getD [] = strBytes "transaction" →
      gjsonTransactionIdStr e = inc.TransactionID →
      b.processLine inc now e = (b, { inc with TransactionObserved := true }, none)) ∧
    (∀ (b : Batch) (inc : Invocation) (now : Int) (e : Bytes),
      dropLine inc e = false →
      b.processLine inc now e = ((b.addData now e).1, inc, (b.addData now e).2)) ∧
    (∀ (b : Batch) (now : Int) (raw d0 : Bytes) (lines : List Bytes) (inc : Invocation),
      raw.splitOn 10 = d0 :: lines →
      lookupInv b.invocations b.currentlyExecutingRequestID = some inc →
      b.metadataBytes ≠ 0 →
      b.AddAgentData now raw =
        ({ (processLines now b inc lines).1 with
            invocations := setInv ((processLines now b inc lines).1).invocations
              b.currentlyExecutingRequestID ((processLines now b inc lines).2.1) },
         (processLines now b inc lines).2.2)) := by
  refine ⟨?_, ?_, ?_⟩
  · intro b inc now e hn ht hid
    have hd : dropLine inc e = true := (dropLine_iff inc e).mpr ⟨hn, ht, hid⟩
    unfold Batch.processLine
    rw [if_pos hd]
  · intro b inc now e hd
    unfold Batch.processLine
    rw [if_neg (by simp [hd])]
  · intro b now raw d0 lines inc hsplit hlook hm
    unfold Batch.AddAgentData
    rw [hsplit]
    dsimp only
    rw [hlook]
    dsimp only
    rw [if_neg hm]

theorem claim_C2_witness :
    (wInc.NeedProxyTransaction = true ∧
     (findEventType s1Txn).getD [] = strBytes "transaction" ∧
     gjsonTransactionIdStr s1Txn = wInc.TransactionID) ∧
    wBatch.processLine wInc 5 s1Txn
      = (wBatch, { wInc with TransactionObserved := true }, none) :=
  ⟨⟨by decide, by decide, by decide⟩,
    claim_C2.1 wBatch wInc 5 s1Txn (by decide) (by decide) (by decide)⟩

/-- C9: `finalizeInvocation` (here through `OnLambdaLogRuntimeDone`) deletes
the invocation from the map even when appending its proxy transaction fails:
with a proxy needed, the call returns `metadataUnavailable` (no metadata) or
`batchFull` (`count = maxSize`) and yet the invocation is gone, so the proxy
transaction is permanently lost. -/
theorem claim_C9 : ∀ (b : Batch) (now : Int) (r status : Bytes) (inc : Invocation),
    lookupInv b.invocations r = some inc →
    inc.NeedProxyTransaction = true →
    ((b.metadataBytes = 0 →
       b.OnLambdaLogRuntimeDone now r status =
         ({ b with invocations := eraseInv b.invocations r },
          some BatchError.metadataUnavailable) ∧
       lookupInv ((b.OnLambdaLogRuntimeDone now r status).1).invocations r = none) ∧
     (b.metadataBytes ≠ 0 → b.count = b.maxSize →
       b.OnLambdaLogRuntimeDone now r status =
         ({ b with invocations := eraseInv b.invocations r },
          some BatchError.batchFull) ∧
       lookupInv ((b.OnLambdaLogRuntimeDone now r status).1).invocations r = none)) := by
  intro b now r status inc hl hneed
  have hfin : inc.Finalize status now = some (proxyTransaction inc status now) := by
    unfold Invocation.Finalize
    rw [if_pos hneed]
  constructor
  · intro hm
    have he : b.OnLambdaLogRuntimeDone now r status =
        ({ b with invocations := eraseInv b.invocations r },
         some BatchError.metadataUnavailable) := by
      unfold Batch.OnLambdaLogRuntimeDone Batch.finalizeInvocation
      rw [hl]
      dsimp only
      rw [hfin]
      dsimp only
      unfold Batch.addData
      rw [if_pos hm]
    exact ⟨he, by rw [he]; exact lookupInv_eraseInv_self b.invocations r⟩
  · intro hm hc
    have he : b.OnLambdaLogRuntimeDone now r status =
        ({ b with invocations := eraseInv b.invocations r },
         some BatchError.batchFull) := by
      unfold Batch.OnLambdaLogRuntimeDone Batch.finalizeInvocation
      rw [hl]
      dsimp only
      rw [hfin]
      dsimp only
      unfold Batch.addData
      rw [if_neg hm, if_pos hc]
    exact ⟨he, by rw [he]; exact lookupInv_eraseInv_self b.invocations r⟩

theorem claim_C9_witness :
    (lookupInv wBatchNoMeta.invocations (strBytes "R1") = some wInc ∧
     wInc.NeedProxyTransaction = true ∧
     wBatchNoMeta.metadataBytes = 0) ∧
    (wBatchNoMeta.OnLambdaLogRuntimeDone 7 (strBytes "R1") (strBytes "failure")).2
      = some BatchError.metadataUnavailable ∧
    lookupInv ((wBatchNoMeta.OnLambdaLogRuntimeDone 7 (strBytes "R1")
      (strBytes "failure")).1).invocations (strBytes "R1") = none :=
  ⟨⟨by decide, by decide, by decide⟩,
    by rw [((claim_C9 wBatchNoMeta 7 (strBytes "R1") (strBytes "failure") wInc
        (by decide) (by decide)).1 (by decide)).1],
    ((claim_C9 wBatchNoMeta 7 (strBytes "R1") (strBytes "failure") wInc
      (by decide) (by decide)).1 (by decide)).2⟩

/-- C3 counterexample: in the S1 run — register `R1`, agent init `T1`,
`AddAgentData` with metadata and the single agent transaction `T1`, then
`OnLambdaLogRuntimeDone` — finalization succeeds, yet the shipped buffer
contains zero (not exactly one) transaction events whose `transaction.id`
equals the invocation's `TransactionID`: the agent's transaction was dropped
and no proxy was synthesized. -/
theorem claim_C3_counterexample :
    s1Run.2 = none ∧
    matchingTxnCount s1Run.1.buf (strBytes "T1") = 0 ∧
    matchingTxnCount s1Run.1.buf (strBytes "T1") ≠ 1 := by decide

/-- C3 (amended): a finalization appends exactly one proxy transaction
carrying the invocation's IDs iff the invocation still needs one
(`TransactionID ≠ ∅ ∧ ¬TransactionObserved`, metadata present, batch not
full); if the agent's transaction was observed, finalization appends nothing —
but since `AddAgentData` drops the observed agent transaction line itself,
the finalized output may contain no matching transaction event at all, so
"exactly one, never both" does not hold in general. -/
theorem claim_C3 : ∀ (b : Batch) (now : Int) (r status : Bytes) (inc : Invocation),
    lookupInv b.invocations r = some inc →
    ((inc.NeedProxyTransaction = false →
       (b.finalizeInvocation now r status).1.buf = b.buf ∧
       (b.finalizeInvocation now r status).2 = none) ∧
     (inc.NeedProxyTransaction = true → b.metadataBytes ≠ 0 → b.count ≠ b.maxSize →
       (b.finalizeInvocation now r status).1.buf
         = b.buf ++ 10 :: proxyTransaction inc status now ∧
       (b.finalizeInvocation now r status).2 = none)) := by
  intro b now r status inc hl
  constructor
  · intro hneed
    have hfin : inc.Finalize status now = none := by
      unfold Invocation.Finalize
      rw [if_neg (by simp [hneed])]
    unfold Batch.finalizeInvocation
    rw [hl]
    dsimp only
    rw [hfin]
    exact ⟨rfl, rfl⟩
  · intro hneed hm hc
    have hfin : inc.Finalize status now = some (proxyTransaction inc status now) := by
      unfold Invocation.Finalize
      rw [if_pos hneed]
    unfold Batch.finalizeInvocation
    rw [hl]
    dsimp only
    rw [hfin]
    dsimp only
    unfold Batch.addData
    rw [if_neg hm, if_neg hc]
    exact ⟨rfl, rfl⟩

theorem claim_C3_witness :
    (lookupInv wBatch.invocations (strBytes "R1") = some wInc ∧
     wInc.NeedProxyTransaction = true ∧
     wBatch.metadataBytes ≠ 0 ∧ wBatch.count ≠ wBatch.maxSize) ∧
    (wBatch.finalizeInvocation 7 (strBytes "R1") (strBytes "timeout")).1.buf
      = wBatch.buf ++ 10 :: proxyTransaction wInc (strBytes "timeout") 7 :=
  ⟨⟨by decide, by decide, by decide, by decide⟩,
    ((claim_C3 wBatch 7 (strBytes "R1") (strBytes "timeout") wInc
      (by decide)).2 (by decide) (by decide) (by decide)).1⟩

/-- C1 counterexample: in the S1 happy path the final buffer is NOT
`metadata ++ '\n' ++ transaction` and `Count()` is not 1 — the agent's
matching transaction line is dropped by `AddAgentData`. -/
theorem claim_C1_counterexample :
    ¬ (s1Run.1.buf = s1Meta ++ 10 :: s1Txn ∧ s1Run.1.Count = 1) := by decide

/-- C1 (amended): in the S1 happy path the run succeeds, the `transaction`
line is dropped (it matches the invocation's `TransactionID` while a proxy is
still needed), so the final buffer equals the metadata line alone, `Count()`
returns 0, no proxy transaction is synthesized (the buffer gains nothing at
finalization because `TransactionObserved` was set), and the invocation is
removed. -/
theorem claim_C1 :
    s1Run.2 = none ∧
    s1Run.1.buf = s1Meta ∧
    s1Run.1.Count = 0 ∧
    (lookupInv s1AfterAdd.invocations (strBytes "R1")).map Invocation.TransactionObserved
      = some true ∧
    lookupInv s1Run.1.invocations (strBytes "R1") = none := by decide

/-- C8: under the map well-formedness invariant (keys match the stored
`RequestID`s and are distinct), a successful `OnShutdown(status)` finalizes
every remaining invocation — the map ends empty and the buffer gains, in
iteration order, a proxy transaction for each invocation that needed one —
and when a finalization fails, `OnShutdown` stops and returns exactly that
first error (shown for the first invocation in iteration order). -/
theorem claim_C8 : ∀ (b : Batch) (now : Int) (status : Bytes),
    (∀ p ∈ b.invocations, p.1 = p.2.RequestID) →
    (b.invocations.map Prod.fst).Nodup →
    (((b.OnShutdown now status).2 = none →
       (b.OnShutdown now status).1.invocations = [] ∧
       (b.OnShutdown now status).1.buf
         = b.buf ++ proxyAppends status now b.invocations) ∧
     (∀ p rest, b.invocations = p :: rest →
       ((b.finalizeInvocation now p.2.RequestID status).2).isSome = true →
       b.OnShutdown now status = b.finalizeInvocation now p.2.RequestID status)) := by
  intro b now status hkeys hnodup
  constructor
  · intro hok
    exact shutdownLoop_success now status b.invocations b rfl hkeys hnodup hok
  · intro p rest hinv hsome
    obtain ⟨e, he⟩ := Option.isSome_iff_exists.mp hsome
    unfold Batch.OnShutdown
    rw [hinv]
    simp only [List.map_cons]
    unfold shutdownLoop
    simp only [he]
    rw [← he]

theorem claim_C8_witness :
    ((∀ p ∈ wBatch2.invocations, p.1 = p.2.RequestID) ∧
     (wBatch2.invocations.map Prod.fst).Nodup ∧
     (wBatch2.OnShutdown 9 (strBytes "failure")).2 = none) ∧
    (wBatch2.OnShutdown 9 (strBytes "failure")).1.invocations = [] ∧
    (wBatch2.OnShutdown 9 (strBytes "failure")).1.buf
      = wBatch2.buf ++ proxyAppends (strBytes "failure") 9 wBatch2.invocations :=
  ⟨⟨by decide, by decide, by decide⟩,
    (claim_C8 wBatch2 9 (strBytes "failure") (by decide) (by decide)).1 (by decide)⟩

/-- C6: metadata immutability. (1) Every state reachable from `NewBatch`
satisfies `metadataBytes = 0 → buf = []` and `metadataBytes ≤ len buf`;
(2) from any state with a non-zero metadata prefix, any operation sequence
preserves `metadataBytes` and the prefix `buf[0:metadataBytes]` byte for
byte; (3) the only transition setting `metadataBytes` from zero to non-zero
is an `AddAgentData`, and it makes the prefix equal the first line of the
split body — the first metadata line ever written. -/
theorem claim_C6 :
    (∀ (maxS : Nat) (maxA : Int) (ops : List BatchOp),
      MetaInv (runOps (NewBatch maxS maxA) ops)) ∧
    (∀ (b : Batch) (ops : List BatchOp), MetaInv b → b.metadataBytes ≠ 0 →
      (runOps b ops).metadataBytes = b.metadataBytes ∧
      (runOps b ops).buf.take b.metadataBytes = b.buf.take b.metadataBytes) ∧
    (∀ (b : Batch) (op : BatchOp), MetaInv b → b.metadataBytes = 0 →
      (applyOp b op).metadataBytes ≠ 0 →
      ∃ now raw d0 lines, op = BatchOp.addAgentData now raw ∧
        raw.splitOn 10 = d0 :: lines ∧
        (applyOp b op).metadataBytes = d0.length ∧
        (applyOp b op).buf.take ((applyOp b op).metadataBytes) = d0) := by
  refine ⟨?_, ?_, ?_⟩
  · intro maxS maxA ops
    exact runOps_metaInv ops (NewBatch maxS maxA) ⟨fun _ => rfl, Nat.le_refl 0⟩
  · intro b ops h hm
    exact ⟨runOps_metadataBytes ops b hm, runOps_prefix ops b h hm⟩
  · intro b op h hm hm1
    exact applyOp_metadata_origin b op h hm hm1

theorem claim_C6_witness :
    (MetaInv wBatch ∧ wBatch.metadataBytes ≠ 0) ∧
    (runOps wBatch [BatchOp.addLambdaData 5 [97]]).metadataBytes
      = wBatch.metadataBytes ∧
    (runOps wBatch [BatchOp.addLambdaData 5 [97]]).buf.take wBatch.metadataBytes
      = wBatch.buf.take wBatch.metadataBytes :=
  ⟨⟨⟨fun h => absurd h (by decide), by decide⟩, by decide⟩,
    claim_C6.2.1 wBatch [BatchOp.addLambdaData 5 [97]]
      ⟨fun h => absurd h (by decide), by decide⟩ (by decide)⟩
